import Mathlib

/-!
Verification of the spin engine of the `luckypickwheel` repository
(`src/components/WheelOfNames.tsx`, `src/components/DragDropNamesList.tsx`).

The TypeScript source is shallowly embedded: JavaScript numbers that only
ever hold exact decimal/integral values in the claims are modelled as `ℚ`,
the JavaScript `%` operator (a remainder whose sign follows the dividend)
is modelled by `jsRem`, and `Math.floor` by `Int.floor`.  React state cells
are collected into an explicit `EngineState` record, `setTimeout` /
`setInterval` handles into a list of `PendingTimer`s, and fire-and-forget
side effects (toasts, sounds, speech) into an `Event` list returned by each
operation.  Randomness (`Math.random()` draws) is passed in as explicit
arguments, matching the spec's determinism note.
-/

/-! ## Outcome calculator (WheelOfNames.tsx, `spinWheel`, lines 362-421) -/

/-- Truncation toward zero, as JavaScript division underlying `%` does. -/
def qtrunc (q : ℚ) : ℤ := if 0 ≤ q then ⌊q⌋ else ⌈q⌉

/-- JavaScript's `%` on numbers: `a % b = a - b * trunc(a / b)`,
a remainder whose sign follows the dividend `a`. -/
def jsRem (a b : ℚ) : ℚ := a - b * qtrunc (a / b)

/-- `const totalRotation = currentRotation + (spins * 360) + randomAngle;`
(WheelOfNames.tsx line 371). -/
def computeTotalRotation (currentRotation spins randomAngle : ℚ) : ℚ :=
  currentRotation + spins * 360 + randomAngle

/-- `const normalizedAngle = (360 - (totalRotation % 360)) % 360;`
(WheelOfNames.tsx line 419). -/
def normalizedAngle (totalRotation : ℚ) : ℚ :=
  jsRem (360 - jsRem totalRotation 360) 360

/-- `const segmentAngle = 360 / names.length;`
`const winnerIndex = Math.floor(normalizedAngle / segmentAngle);`
(WheelOfNames.tsx lines 420-421). -/
def winnerIndex (segmentCount : ℕ) (totalRotation : ℚ) : ℤ :=
  ⌊normalizedAngle totalRotation / (360 / (segmentCount : ℚ))⌋

/-- The intensity presets of `spinWheel` (WheelOfNames.tsx lines 362-366). -/
structure IntensityConfig where
  minSpins : ℚ
  maxSpins : ℚ

inductive SpinIntensity
  | gentle
  | normal
  | wild

/-- `const intensityConfig = { gentle: { minSpins: 2, maxSpins: 4 }, normal:
{ minSpins: 3, maxSpins: 6 }, wild: { minSpins: 5, maxSpins: 8 } };`. -/
def intensityConfig : SpinIntensity → IntensityConfig
  | .gentle => ⟨2, 4⟩
  | .normal => ⟨3, 6⟩
  | .wild => ⟨5, 8⟩

/-! ### Bounds for `jsRem` and the winner index -/

lemma jsRem_nonneg_of_nonneg {a b : ℚ} (ha : 0 ≤ a) (hb : 0 < b) :
    0 ≤ jsRem a b := by
  have hq : (0 : ℚ) ≤ a / b := div_nonneg ha hb.le
  have hfl : ((⌊a / b⌋ : ℚ)) ≤ a / b := Int.floor_le _
  have : b * (⌊a / b⌋ : ℚ) ≤ a := by
    calc b * (⌊a / b⌋ : ℚ) ≤ b * (a / b) := by
          exact mul_le_mul_of_nonneg_left hfl hb.le
    _ = a := by field_simp
  simp only [jsRem, qtrunc, if_pos hq]
  linarith

lemma jsRem_lt_of_nonneg {a b : ℚ} (ha : 0 ≤ a) (hb : 0 < b) :
    jsRem a b < b := by
  have hq : (0 : ℚ) ≤ a / b := div_nonneg ha hb.le
  have hfl : a / b < (⌊a / b⌋ : ℚ) + 1 := Int.lt_floor_add_one _
  have : a < b * (⌊a / b⌋ : ℚ) + b := by
    have := mul_lt_mul_of_pos_left hfl hb
    calc a = b * (a / b) := by field_simp
    _ < b * ((⌊a / b⌋ : ℚ) + 1) := mul_lt_mul_of_pos_left hfl hb
    _ = b * (⌊a / b⌋ : ℚ) + b := by ring
  simp only [jsRem, qtrunc, if_pos hq]
  linarith

lemma jsRem_nonpos_of_neg {a b : ℚ} (ha : a < 0) (hb : 0 < b) :
    jsRem a b ≤ 0 := by
  have hq : ¬ (0 : ℚ) ≤ a / b := by
    simp only [not_le]
    exact div_neg_of_neg_of_pos ha hb
  have hcl : a / b ≤ ((⌈a / b⌉ : ℚ)) := Int.le_ceil _
  have : a ≤ b * (⌈a / b⌉ : ℚ) := by
    calc a = b * (a / b) := by field_simp
    _ ≤ b * (⌈a / b⌉ : ℚ) := mul_le_mul_of_nonneg_left hcl hb.le
  simp only [jsRem, qtrunc, if_neg hq]
  linarith

lemma neg_lt_jsRem_of_neg {a b : ℚ} (ha : a < 0) (hb : 0 < b) :
    -b < jsRem a b := by
  have hq : ¬ (0 : ℚ) ≤ a / b := by
    simp only [not_le]
    exact div_neg_of_neg_of_pos ha hb
  have hcl : ((⌈a / b⌉ : ℚ)) < a / b + 1 := Int.ceil_lt_add_one _
  have : b * (⌈a / b⌉ : ℚ) < a + b := by
    calc b * (⌈a / b⌉ : ℚ) < b * (a / b + 1) := mul_lt_mul_of_pos_left hcl hb
    _ = a + b := by field_simp
  simp only [jsRem, qtrunc, if_neg hq]
  linarith

/-- For any total rotation, the double-remainder normalisation of the source
lands in `[0, 360)`. -/
lemma normalizedAngle_nonneg (t : ℚ) : 0 ≤ normalizedAngle t := by
  have h360 : (0 : ℚ) < 360 := by norm_num
  have hsub : 0 ≤ 360 - jsRem t 360 := by
    rcases le_or_lt 0 t with ht | ht
    · have := jsRem_lt_of_nonneg ht h360
      linarith
    · have := jsRem_nonpos_of_neg ht h360
      linarith
  exact jsRem_nonneg_of_nonneg hsub h360

lemma normalizedAngle_lt (t : ℚ) : normalizedAngle t < 360 := by
  have h360 : (0 : ℚ) < 360 := by norm_num
  have hsub : 0 ≤ 360 - jsRem t 360 := by
    rcases le_or_lt 0 t with ht | ht
    · have := jsRem_lt_of_nonneg ht h360
      linarith
    · have := jsRem_nonpos_of_neg ht h360
      linarith
  exact jsRem_lt_of_nonneg hsub h360

/-- The winner index computed by the source lies in `[0, segmentCount)` for
every total rotation, as long as there are at least two segments. -/
lemma winnerIndex_nonneg {n : ℕ} (hn : 2 ≤ n) (t : ℚ) :
    0 ≤ winnerIndex n t := by
  have hnq : (0 : ℚ) < (n : ℚ) := by exact_mod_cast Nat.lt_of_lt_of_le (by norm_num) hn
  have hseg : (0 : ℚ) < 360 / (n : ℚ) := by positivity
  have : (0 : ℚ) ≤ normalizedAngle t / (360 / (n : ℚ)) :=
    div_nonneg (normalizedAngle_nonneg t) hseg.le
  exact Int.floor_nonneg.mpr this

lemma winnerIndex_lt {n : ℕ} (hn : 2 ≤ n) (t : ℚ) :
    winnerIndex n t < n := by
  have hnq : (0 : ℚ) < (n : ℚ) := by exact_mod_cast Nat.lt_of_lt_of_le (by norm_num) hn
  have hseg : (0 : ℚ) < 360 / (n : ℚ) := by positivity
  have hlt : normalizedAngle t / (360 / (n : ℚ)) < (n : ℚ) := by
    rw [div_lt_iff₀ hseg]
    calc normalizedAngle t < 360 := normalizedAngle_lt t
    _ = (n : ℚ) * (360 / (n : ℚ)) := by field_simp
  exact Int.floor_lt.mpr (by exact_mod_cast hlt)

/-- Since the unclamped floor already lies inside `[0, n-1]`, it coincides
with the clamped value the spec describes. -/
lemma winnerIndex_eq_clamped {n : ℕ} (hn : 2 ≤ n) (t : ℚ) :
    winnerIndex n t =
      max 0 (min (⌊normalizedAngle t / (360 / (n : ℚ))⌋) ((n : ℤ) - 1)) := by
  have h0 := winnerIndex_nonneg hn t
  have h1 := winnerIndex_lt hn t
  have : winnerIndex n t ≤ (n : ℤ) - 1 := by omega
  simp only [winnerIndex] at *
  omega

/-! ### Concrete evaluations used by several scenarios -/

lemma jsRem_1125_360 : jsRem 1125 360 = 45 := by
  have h : qtrunc ((1125 : ℚ) / 360) = 3 := by
    simp only [qtrunc]
    rw [if_pos (by norm_num)]
    norm_num
  simp only [jsRem, h]
  norm_num

lemma winnerIndex_4_1125 : winnerIndex 4 1125 = 3 := by
  have hnorm : normalizedAngle 1125 = 315 := by
    simp only [normalizedAngle, jsRem_1125_360]
    have h : qtrunc ((360 - (45 : ℚ)) / 360) = 0 := by
      simp only [qtrunc]
      rw [if_pos (by norm_num)]
      norm_num
    simp only [jsRem, h]
    norm_num
  simp only [winnerIndex, hnorm]
  rw [show (315 : ℚ) / (360 / ((4 : ℕ) : ℚ)) = 7 / 2 by norm_num]
  norm_num

lemma jsRem_1080_360 : jsRem 1080 360 = 0 := by
  have h : qtrunc ((1080 : ℚ) / 360) = 3 := by
    simp only [qtrunc]
    rw [if_pos (by norm_num)]
    norm_num
  simp only [jsRem, h]
  norm_num

lemma jsRem_360_360 : jsRem 360 360 = 0 := by
  have h : qtrunc ((360 : ℚ) / 360) = 1 := by
    simp only [qtrunc]
    rw [if_pos (by norm_num)]
    norm_num
  simp only [jsRem, h]
  norm_num

lemma winnerIndex_4_1080 : winnerIndex 4 1080 = 0 := by
  have hnorm : normalizedAngle 1080 = 0 := by
    simp only [normalizedAngle, jsRem_1080_360]
    rw [show (360 : ℚ) - 0 = 360 by norm_num]
    exact jsRem_360_360
  simp only [winnerIndex, hnorm]
  norm_num

/-! ## Claim theorems about the outcome calculator -/

/-- **C1.** For every prior rotation angle, injected spin count, injected
random offset in `[0, 360)` and segment count `N ≥ 2`, the computation sets
`totalRotationAngle = prior + spins * 360 + offset`,
`normalizedAngle = (360 - total % 360) % 360`, and the winner index equals
`⌊normalizedAngle / (360 / N)⌋` clamped to `[0, N - 1]`; concretely, with
names `["Alice", "Bob", "Charlie", "Diana"]`, prior `0`, spin count `3` and
offset `45°` it yields a total of `1125°` and winner index `3` (Diana). -/
theorem spin_outcome_formula :
    (∀ (prior spins offset : ℚ) (n : ℕ), 2 ≤ n → 0 ≤ offset → offset < 360 →
      computeTotalRotation prior spins offset = prior + spins * 360 + offset ∧
      normalizedAngle (computeTotalRotation prior spins offset) =
        jsRem (360 - jsRem (computeTotalRotation prior spins offset) 360) 360 ∧
      winnerIndex n (computeTotalRotation prior spins offset) =
        max 0 (min
          (⌊normalizedAngle (computeTotalRotation prior spins offset) /
              (360 / (n : ℚ))⌋) ((n : ℤ) - 1))) ∧
    computeTotalRotation 0 3 45 = 1125 ∧
    winnerIndex 4 1125 = 3 ∧
    ["Alice", "Bob", "Charlie", "Diana"][3]? = some "Diana" := by
  refine ⟨fun prior spins offset n hn _ _ => ⟨rfl, rfl, winnerIndex_eq_clamped hn _⟩,
    ?_, winnerIndex_4_1125, rfl⟩
  simp only [computeTotalRotation]
  norm_num

/-- Witness for C1 at the spec's concrete scenario. -/
theorem spin_outcome_formula_witness :
    winnerIndex 4 (computeTotalRotation 0 3 45) =
      max 0 (min
        (⌊normalizedAngle (computeTotalRotation 0 3 45) / (360 / (4 : ℚ))⌋)
        ((4 : ℤ) - 1)) :=
  (spin_outcome_formula.1 0 3 45 4 (by norm_num) (by norm_num) (by norm_num)).2.2

/-- **C2.** For every segment count in `[2, 20]`, every prior rotation angle
and spin count, and every offset in `[0, 360)`, the winner index lies in
`[0, segmentCount)`; and at the concrete boundary scenario (four names,
prior `0`, spin count `3`, offset exactly `0`) the winner index is `0`. -/
theorem winnerIndex_range :
    (∀ (prior spins offset : ℚ) (n : ℕ), 2 ≤ n → n ≤ 20 →
      0 ≤ offset → offset < 360 →
      0 ≤ winnerIndex n (computeTotalRotation prior spins offset) ∧
      winnerIndex n (computeTotalRotation prior spins offset) < n) ∧
    winnerIndex 4 (computeTotalRotation 0 3 0) = 0 := by
  constructor
  · intro prior spins offset n hn _ _ _
    exact ⟨winnerIndex_nonneg hn _, winnerIndex_lt hn _⟩
  · have : computeTotalRotation 0 3 0 = 1080 := by
      simp only [computeTotalRotation]; norm_num
    rw [this]
    exact winnerIndex_4_1080

/-- Witness for C2 at segment count 4, prior 0, spins 3, offset 45. -/
theorem winnerIndex_range_witness :
    0 ≤ winnerIndex 4 (computeTotalRotation 0 3 45) ∧
      winnerIndex 4 (computeTotalRotation 0 3 45) < 4 :=
  winnerIndex_range.1 0 3 45 4 (by norm_num) (by norm_num) (by norm_num) (by norm_num)

/-- **C7.** All intensity presets have `minSpins ≥ 2`, and for every spin
whose injected spin count is drawn from `[minSpins, maxSpins)` with
`minSpins ≥ 2` and whose offset lies in `[0, 360)`, the produced total
rotation is strictly greater than the prior rotation angle. -/
theorem totalRotation_strictly_increases :
    (∀ i : SpinIntensity, 2 ≤ (intensityConfig i).minSpins) ∧
    (∀ (prior spins offset minSpins maxSpins : ℚ), 2 ≤ minSpins →
      minSpins ≤ spins → spins < maxSpins → 0 ≤ offset → offset < 360 →
      prior < computeTotalRotation prior spins offset) := by
  constructor
  · intro i
    cases i <;> simp [intensityConfig] <;> norm_num
  · intro prior spins offset minSpins maxSpins h2 hmin _ hoff _
    simp only [computeTotalRotation]
    nlinarith

/-- Witness for C7: a `normal`-intensity spin with spin count 3 and offset
45 moves strictly past a prior rotation of 0. -/
theorem totalRotation_strictly_increases_witness :
    (0 : ℚ) < computeTotalRotation 0 3 45 :=
  totalRotation_strictly_increases.2 0 3 45 3 6 (by norm_num) (by norm_num)
    (by norm_num) (by norm_num) (by norm_num)

/-! ## Segment construction (WheelOfNames.tsx, `createSegments`, lines 133-143) -/

/-- One named slice of the wheel, as in the `WheelSegment` interface
(WheelOfNames.tsx lines 16-21). -/
structure WheelSegment where
  name : String
  color : String
  startAngle : ℚ
  endAngle : ℚ
deriving DecidableEq

/-- `createSegments`: for an empty name list return `[]`; otherwise give
segment `i` the span `[i * 360/N, (i+1) * 360/N)` and the colour
`customColors[index % customColors.length]` (WheelOfNames.tsx 133-143). -/
def createSegments (names customColors : List String) : List WheelSegment :=
  if names.length = 0 then []
  else
    let segmentAngle : ℚ := 360 / (names.length : ℚ)
    names.enum.map fun p =>
      { name := p.2
        color := customColors.getD (p.1 % customColors.length) ""
        startAngle := (p.1 : ℚ) * segmentAngle
        endAngle := ((p.1 : ℚ) + 1) * segmentAngle }

lemma createSegments_getElem (names customColors : List String) (i : ℕ)
    (h : i < names.length) :
    (createSegments names customColors)[i]? =
      some { name := names[i]
             color := customColors.getD (i % customColors.length) ""
             startAngle := (i : ℚ) * (360 / (names.length : ℚ))
             endAngle := ((i : ℚ) + 1) * (360 / (names.length : ℚ)) } := by
  have hne : ¬ names.length = 0 := by omega
  simp only [createSegments, if_neg hne, List.getElem?_map, List.getElem?_enum,
    List.getElem?_eq_getElem h, Option.map_some']

lemma createSegments_length (names customColors : List String) :
    (createSegments names customColors).length = names.length := by
  by_cases h : names.length = 0
  · simp [createSegments, h]
  · unfold createSegments
    rw [if_neg h]
    simp [List.enum_length]

/-- **C8.** Segment construction produces exactly `N` segments, where
segment `i` carries the `i`-th name and spans
`[i * 360/N, (i+1) * 360/N)`; consequently consecutive segments are
adjacent, the first starts at `0`, and the last ends at `360`, so the
segments partition `[0, 360)` in name-list order.  An empty name list
produces the empty segment list. -/
theorem createSegments_partition :
    ∀ (names customColors : List String),
      (createSegments names customColors).length = names.length ∧
      (names.length = 0 → createSegments names customColors = []) ∧
      (∀ i, i < names.length →
        ((createSegments names customColors)[i]?.map WheelSegment.name) =
          names[i]? ∧
        ((createSegments names customColors)[i]?.map WheelSegment.startAngle) =
          some ((i : ℚ) * (360 / (names.length : ℚ))) ∧
        ((createSegments names customColors)[i]?.map WheelSegment.endAngle) =
          some (((i : ℚ) + 1) * (360 / (names.length : ℚ)))) ∧
      (∀ i, i + 1 < names.length →
        ((createSegments names customColors)[i + 1]?.map WheelSegment.startAngle) =
          ((createSegments names customColors)[i]?.map WheelSegment.endAngle)) ∧
      (0 < names.length →
        ((createSegments names customColors)[0]?.map WheelSegment.startAngle) =
          some 0 ∧
        ((createSegments names customColors)[names.length - 1]?.map
            WheelSegment.endAngle) = some 360) := by
  intro names customColors
  refine ⟨createSegments_length names customColors, ?_, ?_, ?_, ?_⟩
  · intro h
    simp [createSegments, h]
  · intro i h
    rw [createSegments_getElem names customColors i h]
    simp [List.getElem?_eq_getElem h]
  · intro i h
    rw [createSegments_getElem names customColors i (by omega),
        createSegments_getElem names customColors (i + 1) h]
    simp only [Option.map_some']
    congr 1
    push_cast
    ring
  · intro h
    have hlast : names.length - 1 < names.length := by omega
    refine ⟨?_, ?_⟩
    · rw [createSegments_getElem names customColors 0 h]
      simp
    · rw [createSegments_getElem names customColors (names.length - 1) hlast]
      simp only [Option.map_some', Option.some.injEq]
      have hcast : ((names.length - 1 : ℕ) : ℚ) = (names.length : ℚ) - 1 := by
        have : (1 : ℕ) ≤ names.length := h
        push_cast [Nat.cast_sub this]
        ring
      rw [hcast]
      have hne : (names.length : ℚ) ≠ 0 := by
        exact_mod_cast Nat.pos_iff_ne_zero.mp h
      field_simp

/-- Witness for C8 at the default four-name list of the source. -/
theorem createSegments_partition_witness :
    (createSegments ["Alice", "Bob", "Charlie", "Diana"] []).length = 4 ∧
      ((createSegments ["Alice", "Bob", "Charlie", "Diana"] [])[0]?.map
        WheelSegment.startAngle) = some 0 :=
  ⟨(createSegments_partition ["Alice", "Bob", "Charlie", "Diana"] []).1,
   ((createSegments_partition ["Alice", "Bob", "Charlie", "Diana"] []).2.2.2.2
     (by norm_num)).1⟩

/-! ## The name list (WheelOfNames.tsx `addName`/`removeName` lines 175-205,
DragDropNamesList.tsx `handleDragEnd` lines 106-116) -/

/-- The whitespace class removed by JavaScript's `String.prototype.trim`
(ASCII whitespace plus NBSP and BOM). -/
def jsWhitespace (c : Char) : Bool :=
  c == ' ' || c == '\t' || c == '\n' || c == '\r' || c == '\x0b' || c == '\x0c' ||
    c == '\u00A0' || c == '\uFEFF'

/-- Trim on the character list: drop leading whitespace, then trailing
whitespace (via reverse). -/
def jsTrimList (l : List Char) : List Char :=
  ((l.dropWhile jsWhitespace).reverse.dropWhile jsWhitespace).reverse

/-- JavaScript's `String.prototype.trim`, as used by `addName`. -/
def jsTrim (s : String) : String := ⟨jsTrimList s.data⟩

lemma dropWhile_head_false {p : Char → Bool} :
    ∀ (l : List Char) (c : Char) (t : List Char),
      List.dropWhile p l = c :: t → p c = false := by
  intro l
  induction l with
  | nil => intro c t h; simp at h
  | cons a l ih =>
      intro c t h
      rw [List.dropWhile_cons] at h
      by_cases hpa : p a = true
      · rw [if_pos hpa] at h
        exact ih c t h
      · rw [if_neg hpa] at h
        cases h
        simpa using hpa

lemma dropWhile_dropWhile {p : Char → Bool} (l : List Char) :
    List.dropWhile p (List.dropWhile p l) = List.dropWhile p l := by
  cases h : List.dropWhile p l with
  | nil => simp
  | cons c t =>
      have hc := dropWhile_head_false l c t h
      rw [List.dropWhile_cons, hc]
      simp

lemma dropWhile_append_eq {p : Char → Bool} :
    ∀ l : List Char, ∃ u, u ++ List.dropWhile p l = l := by
  intro l
  induction l with
  | nil => exact ⟨[], rfl⟩
  | cons a l ih =>
      rw [List.dropWhile_cons]
      by_cases hpa : p a = true
      · rw [if_pos hpa]
        obtain ⟨u, hu⟩ := ih
        exact ⟨a :: u, by simpa using hu⟩
      · rw [if_neg hpa]
        exact ⟨[], rfl⟩

lemma jsTrimList_idem (l : List Char) :
    jsTrimList (jsTrimList l) = jsTrimList l := by
  unfold jsTrimList
  set m := l.dropWhile jsWhitespace with hm
  set d := m.reverse.dropWhile jsWhitespace with hd
  have hstep : d.reverse.dropWhile jsWhitespace = d.reverse := by
    cases hB : d.reverse with
    | nil => simp
    | cons c t =>
        obtain ⟨u, hu⟩ := dropWhile_append_eq (p := jsWhitespace) m.reverse
        rw [← hd] at hu
        have hm2 : m = d.reverse ++ u.reverse := by
          have h := congrArg List.reverse hu
          simpa [List.reverse_append] using h.symm
        have hmc : List.dropWhile jsWhitespace l = c :: (t ++ u.reverse) := by
          rw [← hm, hm2, hB]
          simp
        have hc : jsWhitespace c = false :=
          dropWhile_head_false l c (t ++ u.reverse) hmc
        rw [List.dropWhile_cons, hc]
        simp
  rw [hstep, List.reverse_reverse]
  have hdd : List.dropWhile jsWhitespace d = d := by
    rw [hd]
    exact dropWhile_dropWhile m.reverse
  rw [hdd]

lemma jsTrim_idem (s : String) : jsTrim (jsTrim s) = jsTrim s :=
  congrArg String.mk (jsTrimList_idem s.data)

/-- `addName` (WheelOfNames.tsx lines 175-196): append the trimmed name iff
it is non-empty (JS truthiness of the trimmed string), not already included,
and the list holds fewer than 20 names; otherwise only a toast is shown and
the list is unchanged. -/
def addName (names : List String) (newName : String) : List String :=
  if jsTrim newName ≠ "" ∧ names.contains (jsTrim newName) = false ∧
      names.length < 20
  then names ++ [jsTrim newName]
  else names

/-- `removeName` (WheelOfNames.tsx lines 199-205):
`prev.filter((_, i) => i !== index)`.  The index is a JavaScript number and
is kept as an integer so that out-of-range calls are representable. -/
def removeName (names : List String) (index : ℤ) : List String :=
  List.map Prod.snd (names.enum.filter fun p : ℕ × String => ((p.1 : ℤ) != index))

/-- Normalisation JavaScript's `Array.prototype.splice` applies to a start
index: negative indices count from the end, and the result is clamped to
`[0, len]`. -/
def spliceIndex (len : ℕ) (i : ℤ) : ℕ :=
  if i < 0 then (len + i).toNat else min i.toNat len

/-- `arrayMove` from the `@dnd-kit/sortable` dependency, called by
`handleDragEnd`:
`newArray.splice(to < 0 ? newArray.length + to : to, 0, newArray.splice(from, 1)[0])`
on a copy of the array.  The destination ternary reads the length before the
removal; the insertion start is then clamped by `splice` to the shortened
array.  When the normalised source index is past the end JavaScript would
insert `undefined`; `handleDragEnd` never reaches that branch (`findIndex`
returns `-1` or a valid index) and it is modelled as leaving the list
unchanged. -/
def arrayMove {α : Type} (l : List α) (i j : ℤ) : List α :=
  match l[spliceIndex l.length i]? with
  | none => l
  | some a =>
      let l' := l.eraseIdx (spliceIndex l.length i)
      l'.insertIdx (min (if j < 0 then (l.length + j).toNat else j.toNat) l'.length) a

/-- The sortable ids `${index}-${name}` of DragDropNamesList.tsx. -/
def nameId (i : ℕ) (name : String) : String := toString i ++ "-" ++ name

/-- `names.findIndex((name, index) => `${index}-${name}` === id)`:
`-1` when no entry matches (in particular when the drag ended over
nothing, i.e. the id is `none`). -/
def findIdxJS (names : List String) (id? : Option String) : ℤ :=
  match names.enum.findIdx? (fun p => some (nameId p.1 p.2) == id?) with
  | some k => (k : ℤ)
  | none => -1

/-- `handleDragEnd` (DragDropNamesList.tsx lines 106-116): when the active
id differs from the id dragged over, reorder via `arrayMove`. -/
def handleDragEnd (names : List String) (activeId : String)
    (overId? : Option String) : List String :=
  if some activeId ≠ overId? then
    arrayMove names (findIdxJS names (some activeId)) (findIdxJS names overId?)
  else names

/-- The name-list invariant maintained by the component: entries are
distinct, non-empty, trimmed, and there are at most 20 of them. -/
def NameListInv (names : List String) : Prop :=
  names.Nodup ∧ names.length ≤ 20 ∧ ∀ s ∈ names, s ≠ "" ∧ jsTrim s = s

/-! ### Helper lemmas for `removeName` and `arrayMove` -/

lemma removeName_enumFrom (index : ℤ) :
    ∀ (l : List String) (n : ℕ),
      List.map Prod.snd
          ((List.enumFrom n l).filter fun p : ℕ × String => ((p.1 : ℤ) != index)) =
        if (n : ℤ) ≤ index ∧ index < (n : ℤ) + l.length
        then l.take (index - n).toNat ++ l.drop ((index - n).toNat + 1)
        else l := by
  intro l
  induction l with
  | nil =>
      intro n
      rw [List.enumFrom_nil, List.filter_nil, List.map_nil, if_neg]
      simp only [List.length_nil]
      push_cast
      omega
  | cons a t ih =>
      intro n
      rw [List.enumFrom_cons, List.filter_cons]
      by_cases hn : ((n : ℤ)) = index
      · have hbne : (((n : ℤ)) != index) = false := by
          rw [hn]
          exact bne_self_eq_false index
        rw [hbne]
        simp only [Bool.false_eq_true, if_false]
        rw [ih (n + 1), if_neg (by push_cast; omega), if_pos (by
          constructor
          · omega
          · simp only [List.length_cons]
            push_cast
            omega)]
        have h0 : (index - n).toNat = 0 := by omega
        rw [h0]
        simp
      · have hbne : (((n : ℤ)) != index) = true := bne_iff_ne.mpr hn
        rw [hbne]
        simp only [if_true, List.map_cons]
        rw [ih (n + 1)]
        by_cases hc : ((n : ℤ)) ≤ index ∧ index < (n : ℤ) + (a :: t).length
        · have hge : (n : ℤ) + 1 ≤ index := by omega
          have hcond : ((n : ℤ) + 1 ≤ index ∧ index < (n : ℤ) + 1 + t.length) := by
            simp only [List.length_cons] at hc
            push_cast at hc ⊢
            omega
          rw [if_pos (by push_cast; exact hcond), if_pos hc]
          obtain ⟨k, hk⟩ : ∃ k, (index - n).toNat = k + 1 :=
            ⟨(index - (n + 1)).toNat, by omega⟩
          push_cast
          have hk' : (index - ((n : ℤ) + 1)).toNat = k := by omega
          rw [hk, hk', List.take_succ_cons, List.drop_succ_cons]
          simp
        · rw [if_neg (by
            simp only [List.length_cons] at hc
            push_cast at hc ⊢
            omega), if_neg hc]

lemma removeName_out_of_range (names : List String) (index : ℤ)
    (h : index < 0 ∨ (names.length : ℤ) ≤ index) : removeName names index = names := by
  unfold removeName
  rw [List.enum_eq_enumFrom, removeName_enumFrom index names 0, if_neg]
  push_cast
  omega

lemma removeName_valid (names : List String) (i : ℕ) (h : i < names.length) :
    removeName names (i : ℤ) = names.take i ++ names.drop (i + 1) := by
  unfold removeName
  rw [List.enum_eq_enumFrom, removeName_enumFrom (i : ℤ) names 0,
    if_pos (by push_cast; omega)]
  norm_num

lemma removeName_sublist (names : List String) (index : ℤ) :
    (removeName names index).Sublist names := by
  have h1 : ((names.enum.filter fun p : ℕ × String =>
      ((p.1 : ℤ) != index))).Sublist names.enum := List.filter_sublist _
  have h2 := h1.map Prod.snd
  rw [List.enum_map_snd] at h2
  exact h2

lemma arrayMove_perm {α : Type} (l : List α) (i j : ℤ) :
    (arrayMove l i j).Perm l := by
  unfold arrayMove
  cases hget : l[spliceIndex l.length i]? with
  | none => exact List.Perm.refl l
  | some a =>
      obtain ⟨hlt, hval⟩ := List.getElem?_eq_some_iff.mp hget
      have h1 : ((l.eraseIdx (spliceIndex l.length i)).insertIdx
            (min (if j < 0 then (l.length + j).toNat else j.toNat)
              (l.eraseIdx (spliceIndex l.length i)).length) a).Perm
          (a :: l.eraseIdx (spliceIndex l.length i)) :=
        List.perm_insertIdx a _ (min_le_right _ _)
      have hl : l = l.take (spliceIndex l.length i) ++
          a :: l.drop (spliceIndex l.length i + 1) := by
        conv_lhs => rw [← List.take_append_drop (spliceIndex l.length i) l]
        congr 1
        rw [List.drop_eq_getElem_cons hlt, hval]
      have h2 : (a :: l.eraseIdx (spliceIndex l.length i)).Perm l := by
        rw [List.eraseIdx_eq_take_drop_succ]
        calc (a :: (l.take (spliceIndex l.length i) ++
                l.drop (spliceIndex l.length i + 1))).Perm
              (l.take (spliceIndex l.length i) ++
                a :: l.drop (spliceIndex l.length i + 1)) := List.perm_middle.symm
        _ = l := hl.symm
      exact h1.trans h2

lemma addName_reject (names : List String) (newName : String)
    (h : jsTrim newName = "" ∨ names.contains (jsTrim newName) = true ∨
      20 ≤ names.length) :
    addName names newName = names := by
  unfold addName
  rw [if_neg]
  rintro ⟨h1, h2, h3⟩
  rcases h with h | h | h
  · exact h1 h
  · rw [h] at h2
    cases h2
  · omega

lemma addName_inv (names : List String) (newName : String)
    (h : NameListInv names) : NameListInv (addName names newName) := by
  obtain ⟨hnd, hlen, hmem⟩ := h
  unfold addName
  split
  case isTrue hcond =>
    obtain ⟨hne, hcont, hlt⟩ := hcond
    have hnotmem : jsTrim newName ∉ names := by simpa using hcont
    refine ⟨?_, ?_, ?_⟩
    · rw [List.nodup_append]
      refine ⟨hnd, List.nodup_singleton _, ?_⟩
      intro x hx hx2
      simp only [List.mem_singleton] at hx2
      subst hx2
      exact hnotmem hx
    · simp only [List.length_append, List.length_singleton]
      omega
    · intro s hs
      rcases List.mem_append.mp hs with hs | hs
      · exact hmem s hs
      · simp only [List.mem_singleton] at hs
        subst hs
        exact ⟨hne, jsTrim_idem newName⟩
  case isFalse _ => exact ⟨hnd, hlen, hmem⟩

lemma removeName_inv (names : List String) (index : ℤ)
    (h : NameListInv names) : NameListInv (removeName names index) := by
  obtain ⟨hnd, hlen, hmem⟩ := h
  have hsub := removeName_sublist names index
  exact ⟨hnd.sublist hsub, le_trans hsub.length_le hlen,
    fun s hs => hmem s (hsub.mem hs)⟩

lemma handleDragEnd_inv (names : List String) (activeId : String)
    (overId? : Option String) (h : NameListInv names) :
    NameListInv (handleDragEnd names activeId overId?) := by
  obtain ⟨hnd, hlen, hmem⟩ := h
  unfold handleDragEnd
  split
  · have hperm := arrayMove_perm names (findIdxJS names (some activeId))
      (findIdxJS names overId?)
    exact ⟨hperm.symm.nodup hnd, by rw [hperm.length_eq]; exact hlen,
      fun s hs => hmem s (hperm.mem_iff.mp hs)⟩
  · exact ⟨hnd, hlen, hmem⟩

/-- **C9.** The name list keeps the invariant that all entries are distinct,
non-empty, trimmed strings and that there are at most 20 of them: `addName`
leaves the list unchanged when the candidate trims to the empty string, is
already present, or the list already has 20 names; and `addName`,
`removeName` and the drag-reorder handler all preserve the invariant. -/
theorem nameList_invariant :
    (∀ (names : List String) (newName : String),
      jsTrim newName = "" ∨ names.contains (jsTrim newName) = true ∨
        20 ≤ names.length →
      addName names newName = names) ∧
    (∀ (names : List String) (newName : String),
      NameListInv names → NameListInv (addName names newName)) ∧
    (∀ (names : List String) (index : ℤ),
      NameListInv names → NameListInv (removeName names index)) ∧
    (∀ (names : List String) (activeId : String) (overId? : Option String),
      NameListInv names → NameListInv (handleDragEnd names activeId overId?)) :=
  ⟨addName_reject, addName_inv, removeName_inv, handleDragEnd_inv⟩

/-- Witness for C9: adding the duplicate name `"Alice"` to `["Alice"]` is
rejected without modifying the list. -/
theorem nameList_invariant_witness :
    addName ["Alice"] "Alice" = ["Alice"] :=
  nameList_invariant.1 ["Alice"] "Alice" (Or.inr (Or.inl (by decide)))

/-- **C10.** `removeName` at an out-of-range index (negative or at least the
list length) never fails and leaves the list unchanged, and at a valid index
`i` it removes exactly the element at position `i`, preserving the relative
order of the remaining elements. -/
theorem removeName_spec :
    (∀ (names : List String) (index : ℤ),
      index < 0 ∨ (names.length : ℤ) ≤ index → removeName names index = names) ∧
    (∀ (names : List String) (i : ℕ), i < names.length →
      removeName names (i : ℤ) = names.take i ++ names.drop (i + 1)) :=
  ⟨removeName_out_of_range, removeName_valid⟩

/-- Witness for C10: removing index `-1` (and index `7`) from the default
list is a no-op, and removing index `1` deletes exactly `"Bob"`. -/
theorem removeName_spec_witness :
    removeName ["Alice", "Bob", "Charlie", "Diana"] (-1) =
      ["Alice", "Bob", "Charlie", "Diana"] ∧
    removeName ["Alice", "Bob", "Charlie", "Diana"] 1 =
      ["Alice", "Charlie", "Diana"] := by
  constructor
  · exact removeName_spec.1 ["Alice", "Bob", "Charlie", "Diana"] (-1)
      (Or.inl (by norm_num))
  · have h := removeName_spec.2 ["Alice", "Bob", "Charlie", "Diana"] 1 (by norm_num)
    simpa using h

/-! ## Spin lifecycle engine (WheelOfNames.tsx lines 34-79, 208-249, 342-455)

The React state cells of the component are collected into `EngineState`;
`setTimeout`/`setInterval` callbacks become `PendingTimer`s carrying the
values their JavaScript closures capture, and firing a pending timer is the
explicit step `fireTimer`. -/

inductive AnimationType
  | classic
  | elastic
  | bounce
  | smooth
deriving DecidableEq

instance : DecidableEq SpinIntensity := fun a b => by
  cases a <;> cases b <;> first
    | exact isTrue rfl
    | exact isFalse (by intro h; cases h)

/-- A scheduled callback together with the values captured by its closure:
the three cosmetic intervals, the spin-duration timeout and the three
timeouts it schedules in turn (WheelOfNames.tsx lines 391-454), and the
600 ms reset-flash timeout (lines 246-248). -/
inductive PendingTimer
  | highlightInterval (capturedNames : List String)
  | progressInterval (animationDuration : ℚ)
  | timerInterval (limit : ℚ)
  | durationTimeout (totalRotation : ℚ) (capturedNames : List String)
  | confettiTimeout
  | celebrationTimeout (winnerName : Option String)
  | classRemovalTimeout (totalRotation : ℚ)
  | resetEndTimeout
deriving DecidableEq

/-- The engine-relevant React state of `WheelOfNames` (lines 34-79), plus
the list of currently pending timers. -/
structure EngineState where
  names : List String
  isSpinning : Bool
  winner : Option String
  currentRotation : ℚ
  animationType : AnimationType
  showConfetti : Bool
  highlightedSegment : Option ℕ
  spinIntensity : SpinIntensity
  spinProgress : ℚ
  isResetting : Bool
  spinTimer : ℚ
  spinDurationLimit : ℚ
  showWinnerModal : Bool
  pending : List PendingTimer

/-- The component's initial state: the default names and settings of
lines 34-58 (spin duration limit defaulting to 10 s), with no pending
timers. -/
def initialState : EngineState :=
  { names := ["Alice", "Bob", "Charlie", "Diana"]
    isSpinning := false
    winner := none
    currentRotation := 0
    animationType := .elastic
    showConfetti := false
    highlightedSegment := none
    spinIntensity := .normal
    spinProgress := 0
    isResetting := false
    spinTimer := 0
    spinDurationLimit := 10
    showWinnerModal := false
    pending := [] }

/-- Fire-and-forget side effects: toasts, oscillator sounds and speech. -/
inductive Event
  | toastShown (title : String)
  | soundPlayed (frequency duration : ℚ)
  | speechSpoken (text : String)
deriving DecidableEq

/-- How an attempt to start a spin is classified: the spec's
`InsufficientSegments` is the guard-and-toast branch of `spinWheel`
(lines 343-350), `AlreadySpinning` the re-entrancy guard realised by the
disabled/HTML-level click guards (lines 774 and 1027). -/
inductive SpinStartResult
  | started
  | insufficientSegments
  | alreadySpinning
deriving DecidableEq

/-- `spinWheel` (lines 342-455) with the two `Math.random()` draws injected
as `spins` and `randomAngle`.  With fewer than 2 names it only shows a
destructive toast and returns.  Otherwise it resets the per-spin state,
plays the spin sound, computes the total rotation, and registers the
highlight/progress/timer intervals and the duration timeout (whose closure
captures the computed rotation and the current name list). -/
def spinWheel (s : EngineState) (spins randomAngle : ℚ) :
    EngineState × List Event × SpinStartResult :=
  if s.names.length < 2 then
    (s, [Event.toastShown "Not enough names"], SpinStartResult.insufficientSegments)
  else
    ({ s with
        isSpinning := true
        winner := none
        showConfetti := false
        highlightedSegment := none
        spinTimer := 0
        pending := s.pending ++
          [PendingTimer.highlightInterval s.names,
           PendingTimer.progressInterval (s.spinDurationLimit * 1000),
           PendingTimer.timerInterval s.spinDurationLimit,
           PendingTimer.durationTimeout
             (s.currentRotation + spins * 360 + randomAngle) s.names] },
     [Event.soundPlayed 200 (1 / 10)], SpinStartResult.started)

/-- The user-facing spin trigger: both spin buttons are guarded by
`names.length >= 2 && !isSpinning` (line 774, and `disabled` on lines
1027 and 1049), so clicking while a spin is in flight is ignored without
any state change or notification. -/
def spinClick (s : EngineState) (spins randomAngle : ℚ) :
    EngineState × List Event × SpinStartResult :=
  if 2 ≤ s.names.length ∧ s.isSpinning = false then
    spinWheel s spins randomAngle
  else
    (s, [],
      if s.isSpinning then SpinStartResult.alreadySpinning
      else SpinStartResult.insufficientSegments)

/-- `resetWheel` (lines 208-249): zero the rotation, clear winner and
highlight, stop the spinning flag, reset the cosmetic settings, show the
reset toast, and schedule the 600 ms end-of-reset-flash timeout.  It does
not touch the pending spin timers: the source only carries a comment
claiming cleanup happens in a `useEffect`, but no such effect exists and
the interval/timeout handles are never stored. -/
def resetWheel (s : EngineState) : EngineState × List Event :=
  ({ s with
      isResetting := true
      currentRotation := 0
      winner := none
      isSpinning := false
      showConfetti := false
      highlightedSegment := none
      spinProgress := 0
      spinTimer := 0
      animationType := .elastic
      spinIntensity := .normal
      pending := s.pending ++ [PendingTimer.resetEndTimeout] },
   [Event.toastShown "🔄 Wheel Reset"])

/-- Whether a pending timer is one of the three cosmetic intervals cleared
by the duration-timeout callback (lines 413-415). -/
def isCosmeticInterval : PendingTimer → Bool
  | .highlightInterval _ => true
  | .progressInterval _ => true
  | .timerInterval _ => true
  | _ => false

/-- The scheduler step: fire one pending timer, running its callback.
`rand` injects the `Math.random()` draw of the highlight interval; a timer
that is not pending does nothing.  The duration-timeout callback
(lines 412-454) clears the three intervals, computes the winner from its
captured rotation and name list, reveals it (winner, highlight, rotation,
confetti, modal), and schedules the confetti (5000 ms), celebration
(500 ms) and class-removal (100 ms) timeouts; the celebration callback
stops the spinning flag and emits the winner sound, speech and toast. -/
def fireTimer (s : EngineState) (t : PendingTimer) (rand : ℚ) :
    EngineState × List Event :=
  if t ∈ s.pending then
    match t with
    | .highlightInterval capturedNames =>
        ({ s with
            highlightedSegment := some (⌊rand * capturedNames.length⌋.toNat) },
         [])
    | .progressInterval animationDuration =>
        ({ s with spinProgress :=
            if s.spinProgress + 100 / (animationDuration / 100) > 100 then 100
            else s.spinProgress + 100 / (animationDuration / 100) }, [])
    | .timerInterval limit =>
        ({ s with spinTimer :=
            if s.spinTimer + 1 / 10 > limit then limit
            else s.spinTimer + 1 / 10 }, [])
    | .durationTimeout totalRotation capturedNames =>
        ({ s with
            pending := ((s.pending.erase t).filter
                fun u => !isCosmeticInterval u) ++
              [PendingTimer.confettiTimeout,
               PendingTimer.celebrationTimeout
                 capturedNames[(winnerIndex capturedNames.length
                   totalRotation).toNat]?,
               PendingTimer.classRemovalTimeout totalRotation]
            spinProgress := 0
            spinTimer := 0
            winner := capturedNames[(winnerIndex capturedNames.length
              totalRotation).toNat]?
            highlightedSegment :=
              some (winnerIndex capturedNames.length totalRotation).toNat
            currentRotation := totalRotation
            showConfetti := true
            showWinnerModal := true }, [])
    | .confettiTimeout =>
        ({ s with showConfetti := false, pending := s.pending.erase t }, [])
    | .celebrationTimeout winnerName =>
        ({ s with isSpinning := false, pending := s.pending.erase t },
         [Event.soundPlayed 800 (3 / 10),
          Event.speechSpoken ("Congratulations " ++ winnerName.getD "undefined" ++
            "! You are the winner!"),
          Event.toastShown "🎉 We have a winner!"])
    | .classRemovalTimeout _ =>
        ({ s with pending := s.pending.erase t }, [])
    | .resetEndTimeout =>
        ({ s with isResetting := false, pending := s.pending.erase t }, [])
  else (s, [])

/-! ## Claim theorems about the lifecycle engine -/

/-- **C3.** Starting a spin with fewer than 2 names fails with the
insufficient-segments guard: a destructive toast (the user notification) is
shown, the operation is aborted, and the engine state — phase, winner,
rotation, timers, highlight — is returned exactly unchanged. -/
theorem spinWheel_insufficient_names :
    ∀ (s : EngineState) (spins randomAngle : ℚ), s.names.length < 2 →
      spinWheel s spins randomAngle =
        (s, [Event.toastShown "Not enough names"],
          SpinStartResult.insufficientSegments) := by
  intro s spins r h
  unfold spinWheel
  rw [if_pos h]

/-- Witness for C3: a one-name wheel rejects the spin and is unchanged. -/
theorem spinWheel_insufficient_names_witness :
    spinWheel { initialState with names := ["Alice"] } 3 45 =
      ({ initialState with names := ["Alice"] },
       [Event.toastShown "Not enough names"],
       SpinStartResult.insufficientSegments) :=
  spinWheel_insufficient_names { initialState with names := ["Alice"] } 3 45
    (by simp [initialState])

/-- **C5.** Invoking the spin-start operation while a spin is already in
progress is a no-op classified as already-spinning: no outcome is computed,
no timers are started, no event is emitted, and the engine state is
returned unchanged. -/
theorem spinClick_alreadySpinning :
    ∀ (s : EngineState) (spins randomAngle : ℚ), s.isSpinning = true →
      spinClick s spins randomAngle =
        (s, [], SpinStartResult.alreadySpinning) := by
  intro s spins r h
  simp [spinClick, h]

/-- Witness for C5 at the initial state with the spinning flag raised. -/
theorem spinClick_alreadySpinning_witness :
    spinClick { initialState with isSpinning := true } 3 45 =
      ({ initialState with isSpinning := true }, [],
        SpinStartResult.alreadySpinning) :=
  spinClick_alreadySpinning { initialState with isSpinning := true } 3 45 rfl

/-- **C6.** On the announcing-to-idle transition the winner display and the
highlighted segment are cleared, and the accumulated rotation is retained
unchanged when the trigger is starting a new spin ("spin again") but set to
zero when the trigger is a reset. -/
theorem announcing_to_idle_rotation :
    (∀ (s : EngineState) (spins randomAngle : ℚ) (w : String),
      s.winner = some w → 2 ≤ s.names.length →
      (spinWheel s spins randomAngle).1.winner = none ∧
      (spinWheel s spins randomAngle).1.highlightedSegment = none ∧
      (spinWheel s spins randomAngle).1.currentRotation = s.currentRotation) ∧
    (∀ s : EngineState,
      (resetWheel s).1.winner = none ∧
      (resetWheel s).1.highlightedSegment = none ∧
      (resetWheel s).1.currentRotation = 0) := by
  constructor
  · intro s spins r w hw hlen
    unfold spinWheel
    rw [if_neg (by omega)]
    exact ⟨rfl, rfl, rfl⟩
  · intro s
    exact ⟨rfl, rfl, rfl⟩

/-- Witness for C6: spinning again from an announcing state keeps the
rotation while resetting zeroes it. -/
theorem announcing_to_idle_rotation_witness :
    ((spinWheel { initialState with winner := some "Diana" } 3 45).1.winner =
        none ∧
      (spinWheel { initialState with winner := some "Diana" } 3 45).1.currentRotation =
        ({ initialState with winner := some "Diana" } : EngineState).currentRotation) ∧
    (resetWheel initialState).1.currentRotation = 0 :=
  ⟨⟨(announcing_to_idle_rotation.1 { initialState with winner := some "Diana" }
      3 45 "Diana" rfl (by simp [initialState])).1,
    (announcing_to_idle_rotation.1 { initialState with winner := some "Diana" }
      3 45 "Diana" rfl (by simp [initialState])).2.2⟩,
   (announcing_to_idle_rotation.2 initialState).2.2⟩

/-- **C4 (refuting evaluation).** Start a spin from the initial state
(injected spin count 3, offset 45°) and request a reset while the engine is
still spinning, before the duration timer fires.  The reset does force the
phase to idle, but the pending duration timeout of the discarded spin is
*not* cancelled (`resetWheel` never clears it: the handles are never
stored, and the cleanup the source comment promises does not exist), and
when it later fires the discarded spin is still announced: the winner is
set to "Diana", the winner modal opens and confetti starts. -/
theorem resetWheel_misses_pending_spin_timers :
    ((resetWheel (spinWheel initialState 3 45).1).1).isSpinning = false ∧
    PendingTimer.durationTimeout 1125 ["Alice", "Bob", "Charlie", "Diana"] ∈
      ((resetWheel (spinWheel initialState 3 45).1).1).pending ∧
    (fireTimer (resetWheel (spinWheel initialState 3 45).1).1
        (PendingTimer.durationTimeout 1125 ["Alice", "Bob", "Charlie", "Diana"])
        0).1.winner = some "Diana" ∧
    (fireTimer (resetWheel (spinWheel initialState 3 45).1).1
        (PendingTimer.durationTimeout 1125 ["Alice", "Bob", "Charlie", "Diana"])
        0).1.showWinnerModal = true ∧
    (fireTimer (resetWheel (spinWheel initialState 3 45).1).1
        (PendingTimer.durationTimeout 1125 ["Alice", "Bob", "Charlie", "Diana"])
        0).1.showConfetti = true := by
  have hspin : (spinWheel initialState 3 45).1 =
      { initialState with
          isSpinning := true
          winner := none
          showConfetti := false
          highlightedSegment := none
          spinTimer := 0
          pending :=
            [PendingTimer.highlightInterval ["Alice", "Bob", "Charlie", "Diana"],
             PendingTimer.progressInterval 10000,
             PendingTimer.timerInterval 10,
             PendingTimer.durationTimeout 1125
               ["Alice", "Bob", "Charlie", "Diana"]] } := by
    unfold spinWheel
    rw [if_neg (by simp [initialState])]
    simp only [initialState]
    norm_num
  have hreset : (resetWheel (spinWheel initialState 3 45).1).1 =
      { initialState with
          isResetting := true
          pending :=
            [PendingTimer.highlightInterval ["Alice", "Bob", "Charlie", "Diana"],
             PendingTimer.progressInterval 10000,
             PendingTimer.timerInterval 10,
             PendingTimer.durationTimeout 1125
               ["Alice", "Bob", "Charlie", "Diana"],
             PendingTimer.resetEndTimeout] } := by
    rw [hspin]
    simp only [resetWheel, initialState]
    norm_num
  rw [hreset]
  have hmem : PendingTimer.durationTimeout 1125
      ["Alice", "Bob", "Charlie", "Diana"] ∈
        ({ initialState with
            isResetting := true
            pending :=
              [PendingTimer.highlightInterval ["Alice", "Bob", "Charlie", "Diana"],
               PendingTimer.progressInterval 10000,
               PendingTimer.timerInterval 10,
               PendingTimer.durationTimeout 1125
                 ["Alice", "Bob", "Charlie", "Diana"],
               PendingTimer.resetEndTimeout] } : EngineState).pending := by
    simp
  refine ⟨rfl, hmem, ?_, ?_, ?_⟩ <;>
    · unfold fireTimer
      rw [if_pos hmem]
      all_goals simp [winnerIndex_4_1125]
